import Mathlib

/-!
Shallow embedding of the relationship-topology traversal and aggregation logic
of the AIMS client (`AIMSClientInstance`): the recursive flattening `getIds`
inside `getAccountsIdsByRelationship`, the topology fetch wrapper
`getAccountRelationshipTopology`, the legacy managing-chain walker
`getUsersFromManagedRelationship`, and the fan-out aggregator
`getUsersFromAccounts`.

Network calls (`client.get`, reached through `getUsers`,
`getAccountsByRelationship`, and the topology endpoint) are modelled as
environment functions returning `Except Err _`: an `Except.error` is a rejected
promise, an `Except.ok` a resolved one.  Thrown JavaScript values are modelled
by the inductive `Err`; the `AlResponseValidationError` class of the repository
corresponds to the `Err.validation` constructor, and runtime `TypeError`s
raised by property access on `undefined` correspond to `Err.typeError`.
-/

/-- The relationship axes accepted by the topology endpoint
(`relationship: 'managed' | 'managing'` in `getAccountRelationshipTopology`). -/
inductive Axis where
  | managed
  | managing
deriving DecidableEq, Repr

/-- A node of the nested topology tree (`AIMSTopology`): an `id` plus, per
axis, an optional array of child nodes.  `none` models the field being absent
or not an array (the `Array.isArray` guard in `getIds` distinguishes exactly
these cases from a present array). -/
inductive AIMSTopology where
  | mk (id : String) (managed : Option (List AIMSTopology)) (managing : Option (List AIMSTopology))

/-- The `id` field of a topology node. -/
def AIMSTopology.id : AIMSTopology → String
  | .mk i _ _ => i

/-- The raw child field `a[relationship]` of a topology node: `none` when the
field is absent or not an array. -/
def AIMSTopology.axisField : AIMSTopology → Axis → Option (List AIMSTopology)
  | .mk _ m _, .managed => m
  | .mk _ _ g, .managing => g

theorem AIMSTopology.sizeOf_axisField_getD (t : AIMSTopology) (rel : Axis) :
    sizeOf ((t.axisField rel).getD []) < sizeOf t := by
  cases t with
  | mk i m g =>
    cases rel <;> simp only [AIMSTopology.axisField]
    · cases m <;> simp [Option.getD] <;> omega
    · cases g <;> simp [Option.getD]
      omega

/-- The inner helper of `getAccountsIdsByRelationship`:
`accounts.flatMap(a => [a.id, ...getIds(Array.isArray(a[relationship]) ? a[relationship] : [])])`.
The `flatMap` is unfolded into list recursion: the flattening of `a :: rest`
is `a.id`, then the flattening of `a`'s children along the axis (`[]` when the
field is absent), then the flattening of the remaining siblings. -/
def getIds (rel : Axis) : List AIMSTopology → List String
  | [] => []
  | a :: rest => a.id :: (getIds rel ((a.axisField rel).getD []) ++ getIds rel rest)
termination_by accounts => sizeOf accounts
decreasing_by
  · have h := AIMSTopology.sizeOf_axisField_getD a rel
    simp only [List.cons.sizeOf_spec]
    omega
  · simp only [List.cons.sizeOf_spec]
    omega

mutual

/-- Reference pre-order traversal of one node, following the specification's
words: emit the node's own id, then recursively emit the flattened ids of the
node's children along the same axis. -/
def preOrderNode (rel : Axis) (t : AIMSTopology) : List String :=
  t.id :: preOrderList rel ((t.axisField rel).getD [])
termination_by sizeOf t
decreasing_by
  have h := AIMSTopology.sizeOf_axisField_getD t rel
  omega

/-- Reference pre-order traversal of a node sequence, following the
specification's words: each node of the input sequence, in given order, is
expanded by `preOrderNode` before moving to the next sibling. -/
def preOrderList (rel : Axis) : List AIMSTopology → List String
  | [] => []
  | t :: ts => preOrderNode rel t ++ preOrderList rel ts
termination_by ts => sizeOf ts
decreasing_by
  · simp only [List.cons.sizeOf_spec]
    omega
  · simp only [List.cons.sizeOf_spec]
    omega

end

theorem getIds_eq_preOrderList (rel : Axis) (ts : List AIMSTopology) :
    getIds rel ts = preOrderList rel ts := by
  induction ts using getIds.induct rel with
  | case1 => simp [getIds, preOrderList]
  | case2 a rest ih1 ih2 =>
    rw [getIds, preOrderList, preOrderNode, ih1, ih2]
    simp

/-- The example tree of the specification: `A -> [B -> [D], C]` along the
`managed` axis. -/
def topoABDC : AIMSTopology :=
  AIMSTopology.mk "A"
    (some [AIMSTopology.mk "B" (some [AIMSTopology.mk "D" none none]) none,
           AIMSTopology.mk "C" none none]) none

/-- A node `B` listing child `X`, for the duplicate-preservation example. -/
def topoBX : AIMSTopology :=
  AIMSTopology.mk "B" (some [AIMSTopology.mk "X" none none]) none

/-- A node `C` listing the same child `X`, for the duplicate-preservation
example. -/
def topoCX : AIMSTopology :=
  AIMSTopology.mk "C" (some [AIMSTopology.mk "X" none none]) none

/-- A tree in which the id `A` reappears on its own ancestor path: the node
with id `A` lists a (distinct) child node that also carries the id `A`. -/
def topoRepeatedId : AIMSTopology :=
  AIMSTopology.mk "A" none (some [AIMSTopology.mk "A" none none])

/-- An object in the JavaScript heap backing one topology node: an `id` plus,
per axis, an optional array of references (heap addresses) to child nodes.
Unlike the inductive tree `AIMSTopology`, references may form cycles, exactly
as JavaScript object graphs may. -/
structure NodeObj where
  id : String
  managed : Option (List Nat)
  managing : Option (List Nat)

/-- The raw child field `a[relationship]` of a heap node. -/
def NodeObj.axisField (n : NodeObj) : Axis → Option (List Nat)
  | .managed => n.managed
  | .managing => n.managing

/-- `getIds` re-read over an object heap, so that cyclic structures are
expressible.  `fuel` bounds the recursion depth (the call stack); `none` means
the traversal did not complete within that depth.  A traversal that diverges
on a cyclic structure yields `none` for every fuel value. -/
def getIdsFuel (heap : Nat → NodeObj) (rel : Axis) : Nat → List Nat → Option (List String)
  | _, [] => some []
  | 0, _ :: _ => none
  | fuel + 1, a :: rest => do
      let sub ← getIdsFuel heap rel fuel (((heap a).axisField rel).getD [])
      let tail ← getIdsFuel heap rel (fuel + 1) rest
      pure ((heap a).id :: (sub ++ tail))
termination_by fuel addrs => (fuel, addrs.length)

/-- The heap in which the node at address `0` has id `A` and lists itself as
its only `managing` child: the cyclic topology of the specification's
cycle-safety example. -/
def selfCycleHeap : Nat → NodeObj :=
  fun _ => { id := "A", managed := none, managing := some [0] }

theorem getIdsFuel_selfCycle_none (fuel : Nat) :
    getIdsFuel selfCycleHeap Axis.managing fuel [0] = none := by
  induction fuel with
  | zero => simp [getIdsFuel]
  | succ n ih =>
    simp [getIdsFuel, selfCycleHeap, NodeObj.axisField, ih]

/-- C1 (counterexample): the topology whose node `A` lists `A` itself as its
`managing` child does not flatten to `[A]` — there is no recursion-depth
budget under which the `getIds` traversal completes with that (or any)
result, because the code tracks no active-path set and never cuts the axis at
a repeat. -/
theorem getIds_selfCycle_never_singleton :
    ¬ ∃ fuel, getIdsFuel selfCycleHeap Axis.managing fuel [0] = some ["A"] := by
  rintro ⟨fuel, h⟩
  rw [getIdsFuel_selfCycle_none] at h
  exact Option.noConfusion h

/-- C1 (amended): `getIds` has no cycle or depth guard.  On a cyclic
structure whose node `A` lists `A` itself as its axis child the traversal
never completes for any recursion-depth budget (infinite recursion / stack
overflow), producing no result at all rather than `[A]`; and an id that
merely reappears on its own ancestor path in an acyclic tree is traversed
again rather than cut, so that tree flattens to `[A, A]`. -/
theorem getIds_selfCycle_diverges :
    (¬ ∃ fuel out, getIdsFuel selfCycleHeap Axis.managing fuel [0] = some out) ∧
    getIds Axis.managing [topoRepeatedId] = ["A", "A"] := by
  constructor
  · rintro ⟨fuel, out, h⟩
    rw [getIdsFuel_selfCycle_none] at h
    exact Option.noConfusion h
  · simp [getIds, topoRepeatedId, AIMSTopology.axisField, AIMSTopology.id]

/-- C2: on (finite, acyclic) topology trees, the flattening performed by
`getIds` is exactly the specification's pre-order traversal — for each node
of the input sequence in given order, the node's own id, then recursively the
flattened ids of its children along the same axis, before the next sibling —
with duplicates preserved.  In particular the tree `A -> [B -> [D], C]` along
`managed` flattens to `[A, B, D, C]`, and a child `X` listed by both `B` and
`C` appears twice, in traversal order. -/
theorem getIds_is_preOrder_flattening :
    (∀ (rel : Axis) (ts : List AIMSTopology), getIds rel ts = preOrderList rel ts) ∧
    getIds Axis.managed [topoABDC] = ["A", "B", "D", "C"] ∧
    getIds Axis.managed [topoBX, topoCX] = ["B", "X", "C", "X"] := by
  refine ⟨getIds_eq_preOrderList, ?_, ?_⟩ <;>
    simp [getIds, topoABDC, topoBX, topoCX, AIMSTopology.axisField, AIMSTopology.id]

/-- A thrown JavaScript value, as observed by a caller of the client:
`transport` models a rejected request from the HTTP layer, `validation`
models the repository's `AlResponseValidationError` class, and `typeError`
models a runtime `TypeError` raised by operating on `undefined`. -/
inductive Err where
  | transport (msg : String)
  | validation (msg : String)
  | typeError (msg : String)
deriving DecidableEq, Repr

/-- The decoded body returned by `client.get` for the topology endpoint: the
`topology` field may be absent (`none`), in which case `response.topology`
evaluates to `undefined`. -/
structure TopologyResponse where
  topology : Option AIMSTopology

/-- `getAccountRelationshipTopology`: awaits the client response (modelled as
the `Except` input — the account id, relationship, and query params only
shape the request) and returns `response.topology` unchecked: a missing field
yields `undefined` (`none`), not an error. -/
def getAccountRelationshipTopology (resp : Except Err TopologyResponse) :
    Except Err (Option AIMSTopology) :=
  match resp with
  | Except.error e => Except.error e
  | Except.ok r => Except.ok r.topology

/-- `getAccountsIdsByRelationship`: fetches the topology, then evaluates
`[...first, ...getIds(topology[relationship])]` where
`first = addCurrentId ? [accountId] : []`.  The two `Err.typeError` branches
model the runtime `TypeError`s the JavaScript raises at this point: reading
`topology[relationship]` when `topology` is `undefined`, and calling
`accounts.flatMap` inside `getIds` when `topology[relationship]` is
`undefined` (the top-level call, unlike the recursive ones, has no
`Array.isArray` guard). -/
def getAccountsIdsByRelationship (resp : Except Err TopologyResponse)
    (accountId : String) (rel : Axis) (addCurrentId : Bool := true) :
    Except Err (List String) :=
  match getAccountRelationshipTopology resp with
  | Except.error e => Except.error e
  | Except.ok none => Except.error (Err.typeError "cannot read property of undefined")
  | Except.ok (some topo) =>
    match topo.axisField rel with
    | none => Except.error (Err.typeError "flatMap is not a function on undefined")
    | some kids =>
      let first := if addCurrentId then [accountId] else []
      Except.ok (first ++ getIds rel kids)

/-- C3: when the fetched topology is present and its axis field is an array,
`getAccountsIdsByRelationship` returns the flattened axis ids prefixed with
the root account id exactly when `addCurrentId` is `true`, and the
unprefixed flattened list when it is `false`. -/
theorem getAccountsIdsByRelationship_addCurrentId
    (topo : AIMSTopology) (kids : List AIMSTopology) (accountId : String) (rel : Axis)
    (h : topo.axisField rel = some kids) :
    getAccountsIdsByRelationship (Except.ok ⟨some topo⟩) accountId rel true =
      Except.ok (accountId :: getIds rel kids) ∧
    getAccountsIdsByRelationship (Except.ok ⟨some topo⟩) accountId rel false =
      Except.ok (getIds rel kids) := by
  constructor <;>
    simp [getAccountsIdsByRelationship, getAccountRelationshipTopology, h]

/-- The specification's prefixing example: a topology rooted at `100` whose
`managed` children are `200` and `300`. -/
def topo100 : AIMSTopology :=
  AIMSTopology.mk "100"
    (some [AIMSTopology.mk "200" none none, AIMSTopology.mk "300" none none]) none

/-- C3 (witness): on the topology rooted at `100` with managed children
`[200, 300]`, the resolver returns `[100, 200, 300]` with `addCurrentId`
true and `[200, 300]` with it false. -/
theorem getAccountsIdsByRelationship_addCurrentId_witness :
    getAccountsIdsByRelationship (Except.ok ⟨some topo100⟩) "100" Axis.managed true =
      Except.ok ["100", "200", "300"] ∧
    getAccountsIdsByRelationship (Except.ok ⟨some topo100⟩) "100" Axis.managed false =
      Except.ok ["200", "300"] := by
  have h := getAccountsIdsByRelationship_addCurrentId topo100
    [AIMSTopology.mk "200" none none, AIMSTopology.mk "300" none none] "100" Axis.managed
    (by simp [topo100, AIMSTopology.axisField])
  refine ⟨h.1.trans ?_, h.2.trans ?_⟩ <;>
    simp [getIds, AIMSTopology.axisField, AIMSTopology.id]

/-- A successful response whose topology root is present but lacks the
`managed` axis array. -/
def respMissingAxis : Except Err TopologyResponse :=
  Except.ok ⟨some (AIMSTopology.mk "100" none none)⟩

/-- C9 (counterexample): a successful response whose topology root lacks the
`managed` axis array does not surface a distinct validation-failure error:
`getAccountsIdsByRelationship` fails with a generic runtime `TypeError`
(crash), which is not the `validation` kind. -/
theorem getAccountsIdsByRelationship_missingAxis_typeError :
    getAccountsIdsByRelationship respMissingAxis "100" Axis.managed true =
      Except.error (Err.typeError "flatMap is not a function on undefined") ∧
    ¬ ∃ m, getAccountsIdsByRelationship respMissingAxis "100" Axis.managed true =
      Except.error (Err.validation m) := by
  constructor
  · simp [getAccountsIdsByRelationship, getAccountRelationshipTopology, respMissingAxis,
      AIMSTopology.axisField]
  · rintro ⟨m, h⟩
    simp [getAccountsIdsByRelationship, getAccountRelationshipTopology, respMissingAxis,
      AIMSTopology.axisField] at h

/-- C9 (amended): neither function surfaces a validation-failure error for a
successful but malformed response.  `getAccountRelationshipTopology` returns
the missing topology field silently as `undefined`, and
`getAccountsIdsByRelationship` never produces the `validation` kind from a
successful response — a missing root or axis field instead crashes with a
generic runtime `TypeError`. -/
theorem getAccountsIdsByRelationship_no_validation_error :
    (getAccountRelationshipTopology (Except.ok ⟨none⟩) = Except.ok none) ∧
    (∀ (r : TopologyResponse) (accountId : String) (rel : Axis) (addCurrentId : Bool) (m : String),
      getAccountsIdsByRelationship (Except.ok r) accountId rel addCurrentId ≠
        Except.error (Err.validation m)) ∧
    getAccountsIdsByRelationship (Except.ok ⟨none⟩) "100" Axis.managed true =
      Except.error (Err.typeError "cannot read property of undefined") := by
  refine ⟨rfl, ?_, by simp [getAccountsIdsByRelationship, getAccountRelationshipTopology]⟩
  intro r accountId rel addCurrentId m h
  rcases r with ⟨topology⟩
  cases topology with
  | none => simp [getAccountsIdsByRelationship, getAccountRelationshipTopology] at h
  | some topo =>
    cases htf : topo.axisField rel <;>
      simp [getAccountsIdsByRelationship, getAccountRelationshipTopology, htf] at h

/-- A user record.  Beyond an identifier its attributes are opaque to the
traversal logic, so only the identifier is modelled. -/
structure AIMSUser where
  id : String
deriving DecidableEq, Repr

/-- An account record as returned by `getAccountsByRelationship`; the walker
only reads its `id`. -/
structure AIMSAccount where
  id : String
deriving DecidableEq, Repr

/-- The query parameters `getUsers` accepts. -/
structure UserQueryParams where
  include_role_ids : Bool
  include_user_credential : Bool
deriving DecidableEq, Repr

/-- The literal `{ include_role_ids: false, include_user_credential: false }`
passed by both the legacy walker and the aggregator. -/
def noCredParams : UserQueryParams := ⟨false, false⟩

/-- The two network operations the walker and the aggregator perform, as an
environment: `getUsers accountId params` models
`this.getUsers(accountId, params)` and
`getAccountsByRelationship accountId relationship` models
`this.getAccountsByRelationship(accountId, relationship)`.  An
`Except.error` is a rejected promise. -/
structure AIMSClientEnv where
  getUsers : String → UserQueryParams → Except Err (List AIMSUser)
  getAccountsByRelationship : String → String → Except Err (List AIMSAccount)

/-- `parseInt(s, 10)`: optional leading whitespace and sign, then leading
decimal digits; `none` models `NaN` (no digits found). -/
def jsParseInt (s : String) : Option Int :=
  let core : List Char → Option Int := fun l =>
    match l.takeWhile (fun c => c.isDigit) with
    | [] => none
    | ds => some ((ds.foldl (fun acc c => acc * 10 + (c.toNat - 48)) 0 : Nat) : Int)
  match s.toList.dropWhile (fun c => c.isWhitespace) with
  | '-' :: rest => (core rest).map (fun n => -n)
  | '+' :: rest => core rest
  | cs => core cs

/-- The numeric sort key `parseInt(id, 10)` used by the walker's comparator.
When `parseInt` yields `NaN` the JavaScript comparator returns `NaN` and the
sort order is implementation-defined; the model defaults that case to `0`,
and every account id appearing in the theorems parses. -/
def sortKey (a : AIMSAccount) : Int :=
  (jsParseInt a.id).getD 0

/-- `managing.sort((a, b) => parseInt(b.id, 10) - parseInt(a.id, 10))`: the
stable sort by numeric id value, descending.  `List.insertionSort` with this
relation is stable (an element is inserted before the elements it is
processed after exactly when its key is strictly greater), matching the
stability ECMAScript guarantees for `Array.prototype.sort`. -/
def jsSortNumericDesc (l : List AIMSAccount) : List AIMSAccount :=
  List.insertionSort (fun a b => sortKey b ≤ sortKey a) l

theorem jsSortNumericDesc_head_max (ms : List AIMSAccount) (c : AIMSAccount)
    (rest : List AIMSAccount) (h : jsSortNumericDesc ms = c :: rest) :
    ∀ m ∈ ms, sortKey m ≤ sortKey c := by
  intro m hm
  haveI : IsTotal AIMSAccount (fun a b => sortKey b ≤ sortKey a) :=
    ⟨fun a b => (le_total (sortKey b) (sortKey a)).elim Or.inl Or.inr⟩
  haveI : IsTrans AIMSAccount (fun a b => sortKey b ≤ sortKey a) :=
    ⟨fun _ _ _ hab hbc => le_trans hbc hab⟩
  have hsorted := List.sorted_insertionSort (fun a b => sortKey b ≤ sortKey a) ms
  have hperm := List.perm_insertionSort (fun a b => sortKey b ≤ sortKey a) ms
  rw [jsSortNumericDesc] at h
  rw [h] at hsorted hperm
  have hmem : m ∈ c :: rest := (hperm.mem_iff).mpr hm
  rcases List.mem_cons.mp hmem with heq | htail
  · exact le_of_eq (congrArg sortKey heq)
  · exact (List.sorted_cons.mp hsorted).1 m htail

/-- Outcome of one call to the legacy walker: `div` marks a call whose
recursion exceeds the depth budget (the JavaScript recursion never returns),
`err` a rejected promise, `ok` a resolved one. -/
inductive WalkRes where
  | div
  | err (e : Err)
  | ok (users : List AIMSUser)
deriving DecidableEq, Repr

/-- `getUsersFromManagedRelationship`: fetch the leaf's own users (outside
the `try`), then inside the `try` query the `managing` relationship; if the
candidate set is non-empty, sort it by numeric id descending and recurse into
the first element.  The recursive call passes `terminalAccountId` but omits
`failOnError`, so the recursion always runs under the default `true` — this
is the literal argument list
`this.getUsersFromManagedRelationship(managing[0].id, terminalAccountId)`.
An error from the `managing` query or from the recursive call is caught and
swallowed unless `failOnError` holds.  Matching on the sorted list rather
than on `managing.length > 0` is equivalent because sorting preserves
length.  `terminalAccountId` is only ever passed through, never consulted. -/
def getUsersFromManagedRelationship (env : AIMSClientEnv) (fuel : Nat)
    (leafAccountId : String) (terminalAccountId : Option String := none)
    (failOnError : Bool := true) : WalkRes :=
  match fuel with
  | 0 => WalkRes.div
  | fuel + 1 =>
    match env.getUsers leafAccountId noCredParams with
    | Except.error e => WalkRes.err e
    | Except.ok users =>
      match env.getAccountsByRelationship leafAccountId "managing" with
      | Except.error e => if failOnError then WalkRes.err e else WalkRes.ok users
      | Except.ok managing =>
        match jsSortNumericDesc managing with
        | [] => WalkRes.ok users
        | chosen :: _ =>
          match getUsersFromManagedRelationship env fuel chosen.id terminalAccountId true with
          | WalkRes.div => WalkRes.div
          | WalkRes.err e => if failOnError then WalkRes.err e else WalkRes.ok users
          | WalkRes.ok parentUsers => WalkRes.ok (users ++ parentUsers)

/-- Modelled from the spec: the walker as §4.3 of the specification words it,
identical to `getUsersFromManagedRelationship` except that the recursive
ascent is invoked "with the same terminal id and failure policy", i.e. the
current level's `failOnError` is forwarded to the recursive call. -/
def getUsersFromManagedRelationshipSpec (env : AIMSClientEnv) (fuel : Nat)
    (leafAccountId : String) (terminalAccountId : Option String := none)
    (failOnError : Bool := true) : WalkRes :=
  match fuel with
  | 0 => WalkRes.div
  | fuel + 1 =>
    match env.getUsers leafAccountId noCredParams with
    | Except.error e => WalkRes.err e
    | Except.ok users =>
      match env.getAccountsByRelationship leafAccountId "managing" with
      | Except.error e => if failOnError then WalkRes.err e else WalkRes.ok users
      | Except.ok managing =>
        match jsSortNumericDesc managing with
        | [] => WalkRes.ok users
        | chosen :: _ =>
          match getUsersFromManagedRelationshipSpec env fuel chosen.id terminalAccountId
              failOnError with
          | WalkRes.div => WalkRes.div
          | WalkRes.err e => if failOnError then WalkRes.err e else WalkRes.ok users
          | WalkRes.ok parentUsers => WalkRes.ok (users ++ parentUsers)

/-- The array of fulfilled values of a `Promise.all`, in array-index order;
the first (index-wise) rejection otherwise.  Only reached by `promiseAll`
when the completion order reported no rejection, in which case every task is
fulfilled and this is exactly the index-ordered value array. -/
def collectResults {α : Type} : List (Except Err α) → Except Err (List α)
  | [] => Except.ok []
  | Except.error e :: _ => Except.error e
  | Except.ok v :: rest =>
    match collectResults rest with
    | Except.error e => Except.error e
    | Except.ok vs => Except.ok (v :: vs)

/-- `Promise.all` over an array of already-determined request outcomes,
parameterised by the order in which the requests complete (`completionOrder`
lists array indices by completion time): the aggregate rejects with the first
rejection in completion order, and otherwise resolves with the values in
array-index order — never in completion order. -/
def promiseAll {α : Type} (tasks : List (Except Err α)) (completionOrder : List Nat) :
    Except Err (List α) :=
  match completionOrder.findSome? (fun i =>
    match tasks.get? i with
    | some (Except.error e) => some e
    | _ => none) with
  | some e => Except.error e
  | none => collectResults tasks

/-- `getUsersFromAccounts`:
`(await Promise.all(accountList.map(account => this.getUsers(account, ...)))).flat()`.
The per-account fetches are issued concurrently; `completionOrder` carries
the completion schedule into the model. -/
def getUsersFromAccounts (env : AIMSClientEnv) (completionOrder : List Nat)
    (accountList : List String) : Except Err (List AIMSUser) :=
  (promiseAll (accountList.map (fun account => env.getUsers account noCredParams))
    completionOrder).map List.flatten

/-- C4: whenever the `managing` set is non-empty and the ascent resolves, the
walker ascends into exactly one candidate — the head of the
numeric-descending sort, whose id has the greatest numeric value among all
candidates — and the resolved sequence is the current account's own users
followed, unchanged, by the users obtained from that single ascent. -/
theorem walker_ascends_greatest_numeric (env : AIMSClientEnv) (fuel : Nat)
    (leafAccountId : String) (terminalAccountId : Option String) (failOnError : Bool)
    (users parentUsers : List AIMSUser) (managing : List AIMSAccount)
    (chosen : AIMSAccount) (rest : List AIMSAccount)
    (h1 : env.getUsers leafAccountId noCredParams = Except.ok users)
    (h2 : env.getAccountsByRelationship leafAccountId "managing" = Except.ok managing)
    (h3 : jsSortNumericDesc managing = chosen :: rest)
    (h4 : getUsersFromManagedRelationship env fuel chosen.id terminalAccountId true =
      WalkRes.ok parentUsers) :
    (∀ m ∈ managing, sortKey m ≤ sortKey chosen) ∧
    getUsersFromManagedRelationship env (fuel + 1) leafAccountId terminalAccountId failOnError =
      WalkRes.ok (users ++ parentUsers) := by
  refine ⟨jsSortNumericDesc_head_max managing chosen rest h3, ?_⟩
  simp [getUsersFromManagedRelationship, h1, h2, h3, h4]

/-- The specification's tie-break example: leaf account `5` whose `managing`
candidates are `7`, `3`, `9`; account `9` manages nothing further. -/
def envTieBreak : AIMSClientEnv where
  getUsers := fun a _ =>
    if a = "5" then Except.ok [⟨"u5"⟩]
    else if a = "9" then Except.ok [⟨"u9"⟩]
    else Except.ok []
  getAccountsByRelationship := fun a rel =>
    if a = "5" ∧ rel = "managing" then Except.ok [⟨"7"⟩, ⟨"3"⟩, ⟨"9"⟩]
    else Except.ok []

/-- C4 (witness): with candidates `[7, 3, 9]` the walker ascends to `9` (its
numeric id is maximal among the candidates) and returns the leaf's users
followed by account `9`'s users. -/
theorem walker_ascends_greatest_numeric_witness :
    (∀ m ∈ [(⟨"7"⟩ : AIMSAccount), ⟨"3"⟩, ⟨"9"⟩], sortKey m ≤ sortKey (⟨"9"⟩ : AIMSAccount)) ∧
    getUsersFromManagedRelationship envTieBreak 2 "5" none true =
      WalkRes.ok [⟨"u5"⟩, ⟨"u9"⟩] :=
  walker_ascends_greatest_numeric envTieBreak 1 "5" none true
    [⟨"u5"⟩] [⟨"u9"⟩] [⟨"7"⟩, ⟨"3"⟩, ⟨"9"⟩] ⟨"9"⟩ [⟨"7"⟩, ⟨"3"⟩] rfl rfl rfl rfl

/-- A two-level managing chain in which the upper level's `managing` query
fails: account `10` has users `u10` and is managed by account `20`; account
`20` has users `u20` and its `managing` query rejects. -/
def envChain : AIMSClientEnv where
  getUsers := fun a _ =>
    if a = "10" then Except.ok [⟨"u10"⟩]
    else if a = "20" then Except.ok [⟨"u20"⟩]
    else Except.ok []
  getAccountsByRelationship := fun a rel =>
    if a = "10" ∧ rel = "managing" then Except.ok [⟨"20"⟩]
    else Except.error (Err.transport "boom")

/-- C5 (counterexample): the recursive ascent does not receive the current
level's failure policy.  On the two-level chain with `failOnError = false`,
the code returns only the leaf's users (the inner level, running under the
default `true`, rethrows, and the entry level swallows), whereas the
specification's propagating walker would have swallowed the failure at the
inner level and returned both levels' users.  The two disagree. -/
theorem walker_failOnError_not_propagated :
    getUsersFromManagedRelationship envChain 2 "10" none false = WalkRes.ok [⟨"u10"⟩] ∧
    getUsersFromManagedRelationshipSpec envChain 2 "10" none false =
      WalkRes.ok [⟨"u10"⟩, ⟨"u20"⟩] ∧
    getUsersFromManagedRelationship envChain 2 "10" none false ≠
      getUsersFromManagedRelationshipSpec envChain 2 "10" none false := by
  refine ⟨rfl, rfl, ?_⟩
  decide

/-- C5 (amended): every recursive ascent is invoked with the same terminal
account id, but `failOnError` is omitted from the argument list, so the
recursion always runs under the default `true` regardless of the current
level's policy.  Consequently the code coincides with the specification's
propagating walker exactly when the current level's `failOnError` is
`true`. -/
theorem walker_matches_spec_when_failOnError_true (env : AIMSClientEnv) (fuel : Nat)
    (leafAccountId : String) (terminalAccountId : Option String) :
    getUsersFromManagedRelationship env fuel leafAccountId terminalAccountId true =
      getUsersFromManagedRelationshipSpec env fuel leafAccountId terminalAccountId true := by
  induction fuel generalizing leafAccountId with
  | zero => rfl
  | succ n ih =>
    cases h1 : env.getUsers leafAccountId noCredParams with
    | error e =>
      simp [getUsersFromManagedRelationship, getUsersFromManagedRelationshipSpec, h1]
    | ok users =>
      cases h2 : env.getAccountsByRelationship leafAccountId "managing" with
      | error e =>
        simp [getUsersFromManagedRelationship, getUsersFromManagedRelationshipSpec, h1, h2]
      | ok managing =>
        cases h3 : jsSortNumericDesc managing with
        | nil =>
          simp [getUsersFromManagedRelationship, getUsersFromManagedRelationshipSpec,
            h1, h2, h3]
        | cons chosen rest =>
          simp [getUsersFromManagedRelationship, getUsersFromManagedRelationshipSpec,
            h1, h2, h3, ih chosen.id]

/-- C5 (amended, witness): the coincidence theorem applied on the concrete
chain environment with `failOnError = true`. -/
theorem walker_matches_spec_when_failOnError_true_witness :
    getUsersFromManagedRelationship envChain 2 "10" none true =
      getUsersFromManagedRelationshipSpec envChain 2 "10" none true :=
  walker_matches_spec_when_failOnError_true envChain 2 "10" none

/-- The walk reaches level `n` (zero-based: level `0` is the entry account)
with every own-users fetch succeeding and every `managing` query on the way
returning a non-empty candidate set, and the `managing` query at level `n`
fails with `e`.  Each level's successor is the head of the numeric-descending
sort of its candidates — the account the walker actually ascends into. -/
def managingFailsAt (env : AIMSClientEnv) (e : Err) : String → Nat → Prop
  | leaf, 0 =>
    (∃ us, env.getUsers leaf noCredParams = Except.ok us) ∧
      env.getAccountsByRelationship leaf "managing" = Except.error e
  | leaf, n + 1 =>
    (∃ us, env.getUsers leaf noCredParams = Except.ok us) ∧
      ∃ ms chosen rest, env.getAccountsByRelationship leaf "managing" = Except.ok ms ∧
        jsSortNumericDesc ms = chosen :: rest ∧ managingFailsAt env e chosen.id n

theorem managingFailsAt_exists_users (env : AIMSClientEnv) (e : Err) (leaf : String)
    (n : Nat) (h : managingFailsAt env e leaf n) :
    ∃ us, env.getUsers leaf noCredParams = Except.ok us := by
  cases n <;> exact h.1

/-- C6: if the `managing` query fails at some level of the walk, then with
`failOnError = true` the whole call rejects with that error and returns no
partial data, while with `failOnError = false` the failure is absorbed where
the tolerant policy is in force — the entry level, since the policy is not
forwarded — and the call resolves with exactly the users accumulated there
up to and including step 1, i.e. the entry account's own users. -/
theorem walker_managing_failure_semantics (env : AIMSClientEnv) (e : Err) (n fuel : Nat)
    (leafAccountId : String) (terminalAccountId : Option String) (users : List AIMSUser)
    (hfail : managingFailsAt env e leafAccountId n)
    (husers : env.getUsers leafAccountId noCredParams = Except.ok users)
    (hfuel : n + 1 ≤ fuel) :
    getUsersFromManagedRelationship env fuel leafAccountId terminalAccountId true =
      WalkRes.err e ∧
    getUsersFromManagedRelationship env fuel leafAccountId terminalAccountId false =
      WalkRes.ok users := by
  induction n generalizing leafAccountId fuel users with
  | zero =>
    obtain ⟨-, hm⟩ := hfail
    obtain ⟨fuel', rfl⟩ : ∃ k, fuel = k + 1 := ⟨fuel - 1, by omega⟩
    constructor <;> simp [getUsersFromManagedRelationship, husers, hm]
  | succ k ih =>
    obtain ⟨-, ms, chosen, rest, hm, hsort, htail⟩ := hfail
    obtain ⟨fuel', rfl⟩ : ∃ k2, fuel = k2 + 1 := ⟨fuel - 1, by omega⟩
    obtain ⟨usC, husC⟩ := managingFailsAt_exists_users env e chosen.id k htail
    have hinner := ih fuel' chosen.id usC htail husC (by omega)
    constructor <;>
      simp [getUsersFromManagedRelationship, husers, hm, hsort, hinner.1]

/-- C6 (witness): on the two-level chain whose upper `managing` query
rejects, `failOnError = true` rejects the whole call with that error and
`failOnError = false` resolves with exactly the entry account's own users. -/
theorem walker_managing_failure_semantics_witness :
    getUsersFromManagedRelationship envChain 3 "10" none true =
      WalkRes.err (Err.transport "boom") ∧
    getUsersFromManagedRelationship envChain 3 "10" none false =
      WalkRes.ok [⟨"u10"⟩] :=
  walker_managing_failure_semantics envChain (Err.transport "boom") 1 3 "10" none [⟨"u10"⟩]
    ⟨⟨[⟨"u10"⟩], rfl⟩, [⟨"20"⟩], ⟨"20"⟩, [], rfl, rfl, ⟨[⟨"u20"⟩], rfl⟩, rfl⟩
    rfl (by omega)

/-- The environment in which every `getUsers` fetch rejects. -/
def envUsersDown : AIMSClientEnv where
  getUsers := fun _ _ => Except.error (Err.transport "down")
  getAccountsByRelationship := fun _ _ => Except.ok []

/-- C10: if the fetch of the leaf account's own users — performed outside the
`try` block at the entry level — fails, the whole call rejects with that
error for every value of `failOnError`, including `false`. -/
theorem walker_first_fetch_failure_rejects (env : AIMSClientEnv) (fuel : Nat)
    (leafAccountId : String) (terminalAccountId : Option String) (failOnError : Bool)
    (e : Err) (h : env.getUsers leafAccountId noCredParams = Except.error e) :
    getUsersFromManagedRelationship env (fuel + 1) leafAccountId terminalAccountId failOnError =
      WalkRes.err e := by
  simp [getUsersFromManagedRelationship, h]

/-- C10 (witness): with the own-users fetch rejecting, even the tolerant mode
`failOnError = false` rejects the whole call. -/
theorem walker_first_fetch_failure_rejects_witness :
    getUsersFromManagedRelationship envUsersDown 1 "100" none false =
      WalkRes.err (Err.transport "down") :=
  walker_first_fetch_failure_rejects envUsersDown 0 "100" none false
    (Err.transport "down") rfl

theorem collectResults_ok_map (env : AIMSClientEnv) (usersOf : String → List AIMSUser)
    (l : List String) (h : ∀ a ∈ l, env.getUsers a noCredParams = Except.ok (usersOf a)) :
    collectResults (l.map (fun a => env.getUsers a noCredParams)) =
      Except.ok (l.map usersOf) := by
  induction l with
  | nil => rfl
  | cons a rest ih =>
    have ha := h a (List.mem_cons_self a rest)
    have hrest := ih (fun x hx => h x (List.mem_cons_of_mem a hx))
    simp [collectResults, ha, hrest]

theorem collectResults_error {α : Type} (tasks : List (Except Err α)) (t : Except Err α)
    (e : Err) (ht : t ∈ tasks) (he : t = Except.error e) :
    ∃ e2, collectResults tasks = Except.error e2 := by
  subst he
  induction tasks with
  | nil => cases ht
  | cons a rest ih =>
    rcases List.mem_cons.mp ht with heq | hmem
    · exact ⟨e, by rw [← heq]; simp [collectResults]⟩
    · obtain ⟨e2, h2⟩ := ih hmem
      cases a with
      | error ea => exact ⟨ea, by simp [collectResults]⟩
      | ok v => exact ⟨e2, by simp [collectResults, h2]⟩

theorem promiseAll_ok_of_all_ok {α : Type} (tasks : List (Except Err α)) (order : List Nat)
    (h : ∀ t ∈ tasks, ∃ v, t = Except.ok v) :
    promiseAll tasks order = collectResults tasks := by
  unfold promiseAll
  have hfind : (order.findSome? fun i =>
      match tasks.get? i with
      | some (Except.error e) => some e
      | _ => none) = none := by
    rw [List.findSome?_eq_none_iff]
    intro i _
    show (match tasks.get? i with
      | some (Except.error e) => some e
      | _ => none) = none
    cases hg : tasks.get? i with
    | none => rfl
    | some t =>
      obtain ⟨v, rfl⟩ := h t (List.get?_mem hg)
      rfl
  rw [hfind]

theorem promiseAll_error_of_mem {α : Type} (tasks : List (Except Err α)) (order : List Nat)
    (t : Except Err α) (e : Err) (ht : t ∈ tasks) (he : t = Except.error e) :
    ∃ e2, promiseAll tasks order = Except.error e2 := by
  unfold promiseAll
  cases hf : (order.findSome? fun i =>
      match tasks.get? i with
      | some (Except.error e) => some e
      | _ => none) with
  | some e3 => exact ⟨e3, rfl⟩
  | none =>
    obtain ⟨e2, h2⟩ := collectResults_error tasks t e ht he
    exact ⟨e2, h2⟩

/-- C7: when every per-account user fetch resolves, `getUsersFromAccounts`
resolves with the concatenation of each account's user list in input-list
order, for every completion order of the concurrent fetches — a fetch that
completes earlier but sits at a later input position does not move its users
forward. -/
theorem getUsersFromAccounts_input_order (env : AIMSClientEnv) (completionOrder : List Nat)
    (accountList : List String) (usersOf : String → List AIMSUser)
    (h : ∀ a ∈ accountList, env.getUsers a noCredParams = Except.ok (usersOf a)) :
    getUsersFromAccounts env completionOrder accountList =
      Except.ok (accountList.map usersOf).flatten := by
  unfold getUsersFromAccounts
  rw [promiseAll_ok_of_all_ok _ completionOrder (fun t ht => by
      obtain ⟨a, ha, rfl⟩ := List.mem_map.mp ht
      exact ⟨usersOf a, h a ha⟩),
    collectResults_ok_map env usersOf accountList h]
  rfl

/-- C8: if the user fetch for any single account of the input list rejects,
the whole aggregation rejects — for every completion order, even when every
other account's fetch resolves. -/
theorem getUsersFromAccounts_all_or_nothing (env : AIMSClientEnv) (completionOrder : List Nat)
    (accountList : List String) (a : String) (e : Err)
    (ha : a ∈ accountList) (hfail : env.getUsers a noCredParams = Except.error e) :
    ∃ e2, getUsersFromAccounts env completionOrder accountList = Except.error e2 := by
  unfold getUsersFromAccounts
  obtain ⟨e2, h2⟩ :=
    promiseAll_error_of_mem (accountList.map (fun x => env.getUsers x noCredParams))
      completionOrder (env.getUsers a noCredParams) e (List.mem_map.mpr ⟨a, ha, rfl⟩) hfail
  exact ⟨e2, by rw [h2]; rfl⟩

/-- Three accounts whose user fetches all resolve. -/
def envABC : AIMSClientEnv where
  getUsers := fun a _ =>
    if a = "A" then Except.ok [⟨"uA"⟩]
    else if a = "B" then Except.ok [⟨"uB"⟩]
    else Except.ok [⟨"uC"⟩]
  getAccountsByRelationship := fun _ _ => Except.ok []

/-- C7 (witness): for input `[A, B, C]` under the completion order in which
`B` resolves before `A`, the output user order still follows the input
positions: `[usersOf A, usersOf B, usersOf C]`. -/
theorem getUsersFromAccounts_input_order_witness :
    getUsersFromAccounts envABC [1, 0, 2] ["A", "B", "C"] =
      Except.ok [⟨"uA"⟩, ⟨"uB"⟩, ⟨"uC"⟩] :=
  (getUsersFromAccounts_input_order envABC [1, 0, 2] ["A", "B", "C"]
    (fun a => if a = "A" then [⟨"uA"⟩] else if a = "B" then [⟨"uB"⟩] else [⟨"uC"⟩])
    (by intro a ha; fin_cases ha <;> rfl)).trans rfl

/-- Three accounts of which `B`'s user fetch rejects. -/
def envBFails : AIMSClientEnv where
  getUsers := fun a _ =>
    if a = "B" then Except.error (Err.transport "B down")
    else if a = "A" then Except.ok [⟨"uA"⟩]
    else Except.ok [⟨"uC"⟩]
  getAccountsByRelationship := fun _ _ => Except.ok []

/-- C8 (witness): with `B`'s fetch rejecting while `A` and `C` resolve, the
whole aggregation rejects. -/
theorem getUsersFromAccounts_all_or_nothing_witness :
    ∃ e2, getUsersFromAccounts envBFails [0, 1, 2] ["A", "B", "C"] = Except.error e2 :=
  getUsersFromAccounts_all_or_nothing envBFails [0, 1, 2] ["A", "B", "C"] "B"
    (Err.transport "B down") (by simp) rfl


